import Mathlib

/-!
Verification of the mongorestore metadata subsystem and the common db
error-filtering helpers, shallowly embedded from the Go sources
(`mongorestore/metadata.go` and the `common/db` package).

Go strings are modelled by Lean `String` (byte-level operations use
`String.utf8ByteSize`, matching the Go `len` on strings); where stem
surgery on strings is needed they are modelled as `List Char`.
BSON values that the embedded code inspects are strings, booleans and
integers; every other BSON value is abstracted by its printed form.
Server round-trips are modelled by an explicit trace of server
operations together with a responder oracle that yields the error
message (if any) the server returns for each operation.
-/

/-- Modelled from the spec: a three-component server version with
lexicographic comparison, used by the spec phrases "servers >= 4.1.9",
"servers < 4.2" and "server versions >= 4.0".  The `Version` type lives
in the `common/db` package, which is not part of the provided sources. -/
structure Version where
  major : Nat
  minor : Nat
  patch : Nat
deriving DecidableEq

/-- Lexicographic strict order on versions. -/
def Version.lt (a b : Version) : Bool :=
  a.major < b.major ∨
    (a.major = b.major ∧ (a.minor < b.minor ∨
      (a.minor = b.minor ∧ a.patch < b.patch)))

/-- Comparison `a.gte b` holds when `a` is not strictly below `b`. -/
def Version.gte (a b : Version) : Bool :=
  !(Version.lt a b)

/-- A BSON value as inspected by the embedded code: the code only ever
compares values for equality, type-asserts them to `string`, or formats
them with the Go `%v` verb, so values other than strings, booleans and
integers are abstracted by their printed representation. -/
inductive BVal where
  | str (s : String)
  | bool (b : Bool)
  | int (n : Int)
  | other (printed : String)
deriving DecidableEq

/-- Go `fmt` `%v` rendering of a BSON value. -/
def goFormat : BVal → String
  | .str s => s
  | .bool b => if b then "true" else "false"
  | .int n => toString n
  | .other p => p

/-- Go `fmt` `%v` rendering of a possibly missing map entry: a missing
key in a Go map yields a nil interface value, printed as `<nil>`. -/
def goFormatOpt : Option BVal → String
  | none => "<nil>"
  | some v => goFormat v

/-- A `bson.M` / `bson.D` document: an association list from keys to
values.  For the map type (`bson.M`) the list is maintained with unique
keys via `mapSet` / `mapDelete`. -/
def mapGet (m : List (String × BVal)) (k : String) : Option BVal :=
  match m with
  | [] => none
  | (k0, v0) :: rest => if k0 = k then some v0 else mapGet rest k

/-- Go map assignment `m[k] = v`: replace the binding if present,
otherwise add it. -/
def mapSet (m : List (String × BVal)) (k : String) (v : BVal) :
    List (String × BVal) :=
  match m with
  | [] => [(k, v)]
  | (k0, v0) :: rest =>
    if k0 = k then (k, v) :: rest else (k0, v0) :: mapSet rest k v

/-- Go map deletion `delete(m, k)`. -/
def mapDelete (m : List (String × BVal)) (k : String) :
    List (String × BVal) :=
  match m with
  | [] => []
  | (k0, v0) :: rest =>
    if k0 = k then mapDelete rest k else (k0, v0) :: mapDelete rest k

theorem mapGet_mapSet_self (m : List (String × BVal)) (k : String) (v : BVal) :
    mapGet (mapSet m k v) k = some v := by
  induction m with
  | nil => simp [mapSet, mapGet]
  | cons hd tl ih =>
    obtain ⟨k0, v0⟩ := hd
    by_cases h : k0 = k <;> simp [mapSet, mapGet, h, ih]

theorem mapGet_mapSet_ne (m : List (String × BVal)) (k k' : String) (v : BVal)
    (h : k' ≠ k) : mapGet (mapSet m k v) k' = mapGet m k' := by
  have hk : ¬(k = k') := fun hh => h hh.symm
  induction m with
  | nil => simp [mapSet, mapGet, hk]
  | cons hd tl ih =>
    obtain ⟨k0, v0⟩ := hd
    by_cases h0 : k0 = k
    · subst h0
      simp [mapSet, mapGet, hk]
    · by_cases h1 : k0 = k' <;> simp [mapSet, mapGet, h0, h1, ih, h]

theorem mapGet_mapDelete_self (m : List (String × BVal)) (k : String) :
    mapGet (mapDelete m k) k = none := by
  induction m with
  | nil => simp [mapDelete, mapGet]
  | cons hd tl ih =>
    obtain ⟨k0, v0⟩ := hd
    by_cases h : k0 = k <;> simp [mapDelete, mapGet, h, ih]

/-- Go struct `idx.IndexDocument`: an index spec with its key pattern and its
options map (`name`, `ns`, `v`, ...). -/
structure IndexDocument where
  key : List (String × BVal)
  options : List (String × BVal)
deriving DecidableEq

/-- Go struct `intents.Intent`, restricted to the fields read by
`RestoreUsersOrRoles`: target namespace, on-disk size and location. -/
structure Intent where
  db : String
  c : String
  size : Nat
  location : String
deriving DecidableEq

/-- One element of an ordered command document (`bson.D`). -/
inductive CmdElem where
  | str (k : String) (v : String)
  | bool (k : String) (v : Bool)
  | int (k : String) (v : Int)
  | indexes (k : String) (v : List IndexDocument)
  | doc (k : String) (v : BVal)
deriving DecidableEq

/-- A server-visible operation issued by the embedded code. -/
inductive ServerOp where
  | runCommand (dbName : String) (cmd : List CmdElem)
  | insertOne (dbName : String) (coll : String) (index : IndexDocument)
  | dropCollection (dbName : String) (coll : String)
  | restoreCollection (dbName : String) (coll : String) (intent : Intent)
deriving DecidableEq

/-! Section common/db: error filtering -/

/-- A Go `error` as inspected by `FilterError` / `CanIgnoreError`: its
message, whether it unwraps to a `mongo.ServerError`, and the server
error codes it carries (`HasErrorCode`). -/
structure GoError where
  message : String
  isServerError : Bool
  codes : List Int
deriving DecidableEq

/-- Function `CanIgnoreError`: an error can be continued through when it is nil
or is a server error carrying one of the ignorable write error codes
11000 (duplicate key) or 121 (document validation failure). -/
def CanIgnoreError : Option GoError → Bool
  | none => true
  | some e => e.isServerError && (e.codes.contains 11000 || e.codes.contains 121)

/-- Function `FilterError`: returns nil for nil errors and for the
"unacknowledged write" sentinel; returns nil for ignorable errors when
stop-on-error is unset; propagates everything else. -/
def FilterError (stopOnError : Bool) (err : Option GoError) : Option GoError :=
  match err with
  | none => none
  | some e =>
    if e.message = "unacknowledged write" then none
    else if !stopOnError && CanIgnoreError (some e) then none
    else some e

/-! Section common/db: timeseries bucket names -/

/-- The chars of the timeseries bucket collection name stem. -/
def systemBucketsDot : List Char := "system.buckets.".data

/-- Go `strings.TrimPrefix s pre`. -/
def trimPrefixChars (s pre : List Char) : List Char :=
  if pre.isPrefixOf s then s.drop pre.length else s

/-- Function `GetTimeseriesCollNameFromBucket`: strips the `system.buckets.`
stem, failing when the stem is absent or the remainder is empty. -/
def GetTimeseriesCollNameFromBucket (bucketCollName : List Char) :
    Except (List Char) (List Char) :=
  let collName := trimPrefixChars bucketCollName systemBucketsDot
  if collName = bucketCollName ∨ collName = [] then
    .error ("invalid timeseries bucket name: ".data ++ bucketCollName)
  else
    .ok collName

/-! Section mongorestore/metadata.go: MetadataFromJSON -/

/-- The `Metadata` struct: collection options, indexes, UUID and name. -/
structure Metadata where
  options : List (String × BVal)
  indexes : List IndexDocument
  uuid : String
  collectionName : String

/-- Function `MetadataFromJSON`: an empty byte slice yields no metadata and no
error; otherwise the extended-JSON unmarshaller (an oracle parameter
standing for `bson.UnmarshalExtJSON`) decides between error and value. -/
def MetadataFromJSON (unmarshalExtJSON : List Nat → Except String Metadata)
    (jsonBytes : List Nat) : Except String (Option Metadata) :=
  if jsonBytes.length = 0 then .ok none
  else
    match unmarshalExtJSON jsonBytes with
    | .error e => .error e
    | .ok meta => .ok (some meta)

/-! Section mongorestore/metadata.go: ValidateAuthVersions -/

/-- Function `ValidateAuthVersions`: compares the dump and server auth versions,
returning an error message for incompatible pairs and `none` for the
supported ones.  The if-chain mirrors the guard clauses and the `switch`
over `authVersionPair` in the source. -/
def ValidateAuthVersions (dump server : Int) : Option String :=
  if dump = 2 ∨ dump = 4 then
    some "cannot restore users and roles from a dump file with this auth version; finish the upgrade or roll it back"
  else if server = 2 ∨ server = 4 then
    some "cannot restore users and roles to a server with this auth version; finish the upgrade or roll it back"
  else if dump = 3 ∧ server = 5 then none
  else if dump = 5 ∧ server = 5 then none
  else if dump = 3 ∧ server = 3 then none
  else if dump = 1 ∧ server = 1 then none
  else if dump = 1 ∧ server = 5 then
    some "cannot restore users of auth version 1 to a server of auth version 5"
  else if dump = 5 ∧ server = 3 then
    some "cannot restore users of auth version 5 to a server of auth version 3"
  else if dump = 1 ∧ server = 3 then none
  else if (dump = 5 ∧ server = 1) ∨ (dump = 3 ∧ server = 1) then
    some "cannot restore users and roles dump file >= auth version 3 to a server of auth version 1"
  else some "invalid auth pair"

/-! Section mongorestore/metadata.go: UpdateAutoIndexId -/

/-- Function `UpdateAutoIndexId`: on servers at or above 4.0, every
`autoIndexId: false` option element is flipped to `true` unless the
target database is `local`; everything else is untouched. -/
def UpdateAutoIndexId (serverVersion : Version) (nsDB : String)
    (options : List (String × BVal)) : List (String × BVal) :=
  if serverVersion.gte ⟨4, 0, 0⟩ then
    options.map fun elem =>
      if elem.1 = "autoIndexId" ∧ elem.2 = BVal.bool false ∧ nsDB ≠ "local" then
        (elem.1, BVal.bool true)
      else elem
  else options

/-! Section mongorestore/metadata.go: CreateIndexes -/

/-- mongorestore configuration read by `CreateIndexes`: the connected
server version and the keep-index-version output option. -/
structure RestoreConf where
  serverVersion : Version
  keepIndexVersion : Bool
deriving DecidableEq

/-- The fully-qualified index name `<ns>.$<name>` formatted with `%v`,
computed after the `ns` option has been set. -/
def fqIndexName (dbName collName : String) (index : IndexDocument) : String :=
  let opts := mapSet index.options "ns" (.str (dbName ++ "." ++ collName))
  goFormatOpt (mapGet opts "ns") ++ ".$" ++ goFormatOpt (mapGet opts "name")

/-- The sanitization loop of `CreateIndexes`: sets the `ns` option,
enforces the 127-byte namespace limit on servers below 4.2, requires the
index name to be a string, collects the names, and drops the index
version field `v` unless keep-index-version is set. -/
def sanitizeIndexes (conf : RestoreConf) (dbName collName : String) :
    List IndexDocument → Except String (List IndexDocument × List String)
  | [] => .ok ([], [])
  | index :: rest =>
    let opts := mapSet index.options "ns" (.str (dbName ++ "." ++ collName))
    if conf.serverVersion.lt ⟨4, 2, 0⟩ ∧
        127 < (fqIndexName dbName collName index).utf8ByteSize then
      .error ("cannot restore index with namespace " ++
        fqIndexName dbName collName index ++
        ": namespace is too long (max size is 127 bytes)")
    else
      match mapGet opts "name" with
      | some (.str nameStr) =>
        let opts2 := if conf.keepIndexVersion then opts else mapDelete opts "v"
        match sanitizeIndexes conf dbName collName rest with
        | .error e => .error e
        | .ok (restDocs, restNames) =>
          .ok (⟨index.key, opts2⟩ :: restDocs, nameStr :: restNames)
      | _ => .error "expected name to be a string"

/-- The `createIndexes` command document: collection, all index specs,
and `ignoreUnknownIndexOptions: true` on servers at or above 4.1.9. -/
def buildRawCommand (conf : RestoreConf) (collName : String)
    (sanitized : List IndexDocument) : List CmdElem :=
  [CmdElem.str "createIndexes" collName, CmdElem.indexes "indexes" sanitized] ++
    (if conf.serverVersion.gte ⟨4, 1, 9⟩ then
      [CmdElem.bool "ignoreUnknownIndexOptions" true]
    else [])

/-- Function `LegacyInsertIndex`: insert one index document into the
`system.indexes` collection of the database, wrapping any server error. -/
def LegacyInsertIndex (resp : ServerOp → Option String) (dbName : String)
    (index : IndexDocument) : ServerOp × Option String :=
  let op := ServerOp.insertOne dbName "system.indexes" index
  match resp op with
  | some e => (op, some ("insert error: " ++ e))
  | none => (op, none)

/-- The fallback loop of `CreateIndexes`: legacy-insert each index,
stopping at the first failure. -/
def legacyInsertLoop (resp : ServerOp → Option String) (dbName : String) :
    List IndexDocument → List ServerOp × Option String
  | [] => ([], none)
  | index :: rest =>
    match LegacyInsertIndex resp dbName index with
    | (op, some e) => ([op], some ("error creating index: " ++ e))
    | (op, none) =>
      let (ops, r) := legacyInsertLoop resp dbName rest
      (op :: ops, r)

/-- Function `CreateIndexes`: sanitize the index documents, issue one
`createIndexes` command carrying all of them, and on a
"no such cmd: createIndexes" server reply fall back to legacy
one-at-a-time insertion into `system.indexes`.  Returns the trace of
server operations issued and the resulting error, if any. -/
def CreateIndexes (conf : RestoreConf) (resp : ServerOp → Option String)
    (dbName collName : String) (indexes : List IndexDocument) :
    List ServerOp × Option String :=
  match sanitizeIndexes conf dbName collName indexes with
  | .error e => ([], some e)
  | .ok (sanitized, _indexNames) =>
    let rawCommand := buildRawCommand conf collName sanitized
    let op := ServerOp.runCommand dbName rawCommand
    match resp op with
    | none => ([op], none)
    | some errMsg =>
      if errMsg ≠ "no such cmd: createIndexes" then
        ([op], some ("createIndex error: " ++ errMsg))
      else
        let (ops, r) := legacyInsertLoop resp dbName sanitized
        (op :: ops, r)

/-! Section mongorestore/metadata.go: RestoreUsersOrRoles

The function is embedded as a trace builder.  The environment consists
of `collExists` (the `CollectionExists` cache lookup for temp
collections on `admin`), `openErr` (whether opening the BSON file of an
intent fails, keyed by location), and `resp` (the server reply to each
issued operation).  Deferred drops of the temporary collections run at
function exit, in LIFO order, on every exit path after registration;
their errors are only logged. -/

/-- mongorestore options read by `RestoreUsersOrRoles`:
`OutputOptions.TempUsersColl`, `OutputOptions.TempRolesColl`,
`OutputOptions.Drop` and `ToolOptions.WriteConcern`. -/
structure AuthRestoreConf where
  tempUsersColl : String
  tempRolesColl : String
  drop : Bool
  writeConcern : Option BVal
deriving DecidableEq

/-- The per-intent `loopArg` of `RestoreUsersOrRoles`. -/
structure LoopArg where
  intent : Intent
  intentType : String
  mergeParamName : String
  tempCollectionName : String
deriving DecidableEq

/-- The outcome of processing one `loopArg`: the server operations
issued, the merge-command element contributed, the temp collection whose
deferred drop was registered (if the restore succeeded), the database
recorded into `userTargetDB` (set at the end of a successful
iteration), and the error, if any. -/
structure ArgOutcome where
  ops : List ServerOp
  mergeArg : CmdElem
  deferredDrop : Option String
  targetDB : Option String
  err : Option String

/-- One iteration of the users/roles loop.  Note the source only LOGS
"file is empty; skipping" for a size-zero intent and then proceeds: the
merge argument is still appended and the temp collection restored. -/
def processArg (collExists : String → Bool) (openErr : String → Option String)
    (resp : ServerOp → Option String) (arg : LoopArg) : ArgOutcome :=
  let mergeArg := CmdElem.str arg.mergeParamName ("admin." ++ arg.tempCollectionName)
  let afterDrop : List ServerOp → ArgOutcome := fun pre =>
    let restoreOp := ServerOp.restoreCollection "admin" arg.tempCollectionName arg.intent
    match resp restoreOp with
    | some e =>
      ⟨pre ++ [restoreOp], mergeArg, none, none,
        some ("error restoring " ++ arg.intentType ++ ": " ++ e)⟩
    | none =>
      ⟨pre ++ [restoreOp], mergeArg, some arg.tempCollectionName,
        some arg.intent.db, none⟩
  match openErr arg.intent.location with
  | some e => ⟨[], mergeArg, none, none, some e⟩
  | none =>
    if collExists arg.tempCollectionName then
      let dropOp := ServerOp.dropCollection "admin" arg.tempCollectionName
      match resp dropOp with
      | some e =>
        ⟨[dropOp], mergeArg, none, none,
          some ("error dropping preexisting temporary collection " ++
            arg.tempCollectionName ++ ": " ++ e)⟩
      | none => afterDrop [dropOp]
    else afterDrop []

/-- Accumulated state of the users/roles loop. -/
structure LoopResult where
  ops : List ServerOp
  mergeArgs : List CmdElem
  targetDB : String
  deferredDrops : List String
  err : Option String

/-- The users/roles loop over the `loopArg` list, threading
`userTargetDB` and stopping at the first error while keeping the
deferred drops registered so far. -/
def authLoop (collExists : String → Bool) (openErr : String → Option String)
    (resp : ServerOp → Option String) (targetDB : String) :
    List LoopArg → LoopResult
  | [] => ⟨[], [], targetDB, [], none⟩
  | arg :: rest =>
    let o := processArg collExists openErr resp arg
    match o.err with
    | some e => ⟨o.ops, [o.mergeArg], targetDB, o.deferredDrop.toList, some e⟩
    | none =>
      let r := authLoop collExists openErr resp (o.targetDB.getD targetDB) rest
      ⟨o.ops ++ r.ops, o.mergeArg :: r.mergeArgs, r.targetDB,
        o.deferredDrop.toList ++ r.deferredDrops, r.err⟩

/-- The `_mergeAuthzCollections` command document: the merge arguments
accumulated by the loop, the drop option of the caller, the target database
(already mapped to the empty-string sentinel by the caller), and the
write concern when one is configured. -/
def buildMergeCommand (conf : AuthRestoreConf) (mergeArgs : List CmdElem)
    (userTargetDB : String) : List CmdElem :=
  [CmdElem.int "_mergeAuthzCollections" 1] ++ mergeArgs ++
    [CmdElem.bool "drop" conf.drop, CmdElem.str "db" userTargetDB] ++
    (match conf.writeConcern with
     | some wc => [CmdElem.doc "writeConcern" wc]
     | none => [])

/-- The body of `RestoreUsersOrRoles` after the nil checks: run the
loop, map `admin` to the empty-string sentinel, run the merge command on
the `admin` database, and execute the deferred temp-collection drops. -/
def runAuthRestore (conf : AuthRestoreConf) (collExists : String → Bool)
    (openErr : String → Option String) (resp : ServerOp → Option String)
    (args : List LoopArg) : List ServerOp × Option String :=
  let lr := authLoop collExists openErr resp "" args
  let deferOps := lr.deferredDrops.reverse.map
    (fun n => ServerOp.dropCollection "admin" n)
  match lr.err with
  | some e => (lr.ops ++ deferOps, some e)
  | none =>
    let userTargetDB := if lr.targetDB = "admin" then "" else lr.targetDB
    let command := buildMergeCommand conf lr.mergeArgs userTargetDB
    let mergeOp := ServerOp.runCommand "admin" command
    match resp mergeOp with
    | some e => (lr.ops ++ [mergeOp] ++ deferOps,
        some ("error running merge command: " ++ e))
    | none => (lr.ops ++ [mergeOp] ++ deferOps, none)

/-- The users `loopArg`. -/
def mkUsersArg (conf : AuthRestoreConf) (u : Intent) : LoopArg :=
  ⟨u, "users", "tempUsersCollection", conf.tempUsersColl⟩

/-- The roles `loopArg`. -/
def mkRolesArg (conf : AuthRestoreConf) (r : Intent) : LoopArg :=
  ⟨r, "roles", "tempRolesCollection", conf.tempRolesColl⟩

/-- Function `RestoreUsersOrRoles`: nothing to do when both intents are nil; an
error when both are present but name different databases; otherwise the
temp-collection restore loop followed by the merge command. -/
def RestoreUsersOrRoles (conf : AuthRestoreConf) (collExists : String → Bool)
    (openErr : String → Option String) (resp : ServerOp → Option String)
    (users roles : Option Intent) : List ServerOp × Option String :=
  match users, roles with
  | none, none => ([], none)
  | some u, some r =>
    if u.db ≠ r.db then
      ([], some ("cannot restore users and roles to different databases, " ++
        u.db ++ " and " ++ r.db))
    else
      runAuthRestore conf collExists openErr resp [mkUsersArg conf u, mkRolesArg conf r]
  | some u, none => runAuthRestore conf collExists openErr resp [mkUsersArg conf u]
  | none, some r => runAuthRestore conf collExists openErr resp [mkRolesArg conf r]

/-! Section: the claims -/

/-- Claim C8: `GetTimeseriesCollNameFromBucket s` succeeds with
collection name `c` exactly when `s` is the literal `system.buckets.`
stem followed by a non-empty suffix `c`; every other input (no stem, or
the bare stem) is an error. -/
theorem c8_getTimeseriesCollNameFromBucket (s c : List Char) :
    GetTimeseriesCollNameFromBucket s = .ok c ↔
      (s = systemBucketsDot ++ c ∧ c ≠ []) := by
  simp only [GetTimeseriesCollNameFromBucket, trimPrefixChars]
  by_cases hp : systemBucketsDot.isPrefixOf s
  · obtain ⟨t, ht⟩ := List.isPrefixOf_iff_prefix.mp hp
    subst ht
    have hne : ¬(t = systemBucketsDot ++ t) := by
      intro h
      have hl := congrArg List.length h
      simp [systemBucketsDot] at hl
      omega
    by_cases hc : t = []
    · subst hc
      simp [hp, List.drop_left]
    · simp only [hp, if_true, List.drop_left, hne, hc, or_self, if_false]
      constructor
      · rintro h
        cases h
        exact ⟨rfl, hc⟩
      · rintro ⟨h1, h2⟩
        have := List.append_cancel_left h1
        subst this
        rfl
  · have hnp : ¬(∃ u : List Char, s = systemBucketsDot ++ u) := by
      rintro ⟨u, rfl⟩
      exact hp (List.isPrefixOf_iff_prefix.mpr ⟨u, rfl⟩)
    simp only [hp, if_false]
    constructor
    · intro h
      simp at h
    · rintro ⟨h1, h2⟩
      exact absurd ⟨c, h1⟩ hnp

/-- Claim C10: `MetadataFromJSON` maps the empty byte slice to no
metadata and no error; on non-empty input it errors exactly when the
extended-JSON unmarshaller errors. -/
theorem c10_metadataFromJSON (unmarshalExtJSON : List Nat → Except String Metadata)
    (jsonBytes : List Nat) :
    MetadataFromJSON unmarshalExtJSON [] = .ok none ∧
      (jsonBytes ≠ [] →
        ((∃ e, MetadataFromJSON unmarshalExtJSON jsonBytes = .error e) ↔
          ∃ e, unmarshalExtJSON jsonBytes = .error e)) := by
  refine ⟨by simp [MetadataFromJSON], fun hne => ?_⟩
  have hlen : ¬(jsonBytes.length = 0) := by simpa using hne
  simp only [MetadataFromJSON, hlen, if_false]
  cases h : unmarshalExtJSON jsonBytes <;> simp

/-- Witness for C10 at a concrete non-empty input and a failing
unmarshaller. -/
theorem c10_witness :
    (∃ e, MetadataFromJSON (fun _ => .error "bad json") [3] = .error e) ↔
      ∃ e, (fun _ => (Except.error "bad json" : Except String Metadata)) [3] = .error e :=
  (c10_metadataFromJSON (fun _ => .error "bad json") [3]).2 (by decide)

set_option maxHeartbeats 1000000 in
/-- Claim C4: `ValidateAuthVersions` accepts exactly the dump/server
auth-version pairs (3,5), (5,5), (3,3), (1,1) and (1,3); every other
pair (2 or 4 in either slot, (5,3), (1,5), (5,1), (3,1), and anything
unrecognized) is rejected with an error. -/
theorem c4_validateAuthVersions (dump server : Int) :
    ValidateAuthVersions dump server = none ↔
      ((dump = 3 ∧ server = 5) ∨ (dump = 5 ∧ server = 5) ∨
       (dump = 3 ∧ server = 3) ∨ (dump = 1 ∧ server = 1) ∨
       (dump = 1 ∧ server = 3)) := by
  unfold ValidateAuthVersions
  split_ifs <;>
    first
      | exact iff_of_true rfl (by omega)
      | exact iff_of_false (by simp) (by omega)

/-- C2 counterexample: the claim says the "unacknowledged write"
sentinel error is propagated when stop-on-error is set, but
`FilterError` swallows it (returns nil) even with stop-on-error. -/
theorem c2_counterexample :
    FilterError true (some ⟨"unacknowledged write", false, []⟩) = none := by
  decide

/-- Claim C2 (amended): nil errors and the "unacknowledged write"
sentinel are always swallowed regardless of stop-on-error; server
errors carrying code 11000 or 121 are swallowed exactly when
stop-on-error is unset; every other error is propagated unchanged. -/
theorem c2_filterError (stopOnError : Bool) (e : GoError) :
    FilterError stopOnError none = none ∧
      (FilterError stopOnError (some e) = none ↔
        (e.message = "unacknowledged write" ∨
          (stopOnError = false ∧ e.isServerError = true ∧
            (e.codes.contains 11000 = true ∨ e.codes.contains 121 = true)))) ∧
      (FilterError stopOnError (some e) ≠ none →
        FilterError stopOnError (some e) = some e) := by
  refine ⟨rfl, ?_, ?_⟩ <;>
    simp only [FilterError, CanIgnoreError] <;>
    split_ifs with h1 h2 <;>
    simp_all [Bool.and_eq_true, Bool.or_eq_true, Bool.not_eq_true]

/-- Witness for C2 (amended) at a concrete non-ignorable error. -/
theorem c2_witness :
    FilterError false (some ⟨"boom", false, []⟩) = some ⟨"boom", false, []⟩ :=
  (c2_filterError false ⟨"boom", false, []⟩).2.2 (by decide)

/-- Claim C5: on servers at or above 4.0 with a target database other
than `local`, every `autoIndexId: false` option element is rewritten to
`autoIndexId: true`; all other elements, `local` restores, and sub-4.0
servers are left unchanged (and the option count never changes). -/
theorem c5_updateAutoIndexId (serverVersion : Version) (nsDB : String)
    (options : List (String × BVal)) (i : Nat) (e : String × BVal)
    (h : options[i]? = some e) :
    (UpdateAutoIndexId serverVersion nsDB options).length = options.length ∧
      ((serverVersion.gte ⟨4, 0, 0⟩ = true ∧ nsDB ≠ "local" ∧
          e = ("autoIndexId", BVal.bool false)) →
        (UpdateAutoIndexId serverVersion nsDB options)[i]? =
          some ("autoIndexId", BVal.bool true)) ∧
      (¬(serverVersion.gte ⟨4, 0, 0⟩ = true ∧ nsDB ≠ "local" ∧
          e = ("autoIndexId", BVal.bool false)) →
        (UpdateAutoIndexId serverVersion nsDB options)[i]? = some e) := by
  by_cases hv : serverVersion.gte ⟨4, 0, 0⟩ = true
  · refine ⟨by simp [UpdateAutoIndexId, hv], ?_, ?_⟩
    · rintro ⟨-, hdb, rfl⟩
      simp [UpdateAutoIndexId, hv, List.getElem?_map, h, hdb]
    · intro hneg
      have hcond : ¬(e.1 = "autoIndexId" ∧ e.2 = BVal.bool false ∧ nsDB ≠ "local") := by
        rintro ⟨h1, h2, h3⟩
        exact hneg ⟨hv, h3, by cases e; simp_all⟩
      simp [UpdateAutoIndexId, hv, List.getElem?_map, h, hcond]
  · refine ⟨by simp [UpdateAutoIndexId, hv], ?_, fun _ => by simp [UpdateAutoIndexId, hv, h]⟩
    rintro ⟨h1, -, -⟩
    exact absurd h1 hv

/-- Witness for C5 at a concrete option list containing
`autoIndexId: false`, on a 4.0 server restoring into `test`. -/
theorem c5_witness :
    (UpdateAutoIndexId ⟨4, 0, 0⟩ "test"
        [("capped", BVal.bool true), ("autoIndexId", BVal.bool false)])[1]? =
      some ("autoIndexId", BVal.bool true) :=
  (c5_updateAutoIndexId ⟨4, 0, 0⟩ "test"
      [("capped", BVal.bool true), ("autoIndexId", BVal.bool false)] 1
      ("autoIndexId", BVal.bool false) (by decide)).2.1 (by decide)

/-- Claim C9: `RestoreUsersOrRoles` with both intents nil does nothing
and returns nil; with both intents present but naming different
databases it returns an error having issued no server operation. -/
theorem c9_restoreUsersOrRoles (conf : AuthRestoreConf)
    (collExists : String → Bool) (openErr : String → Option String)
    (resp : ServerOp → Option String) :
    RestoreUsersOrRoles conf collExists openErr resp none none = ([], none) ∧
      ∀ u r : Intent, u.db ≠ r.db →
        (RestoreUsersOrRoles conf collExists openErr resp (some u) (some r)).1 = [] ∧
        (RestoreUsersOrRoles conf collExists openErr resp (some u) (some r)).2 ≠ none := by
  refine ⟨rfl, fun u r h => ?_⟩
  simp [RestoreUsersOrRoles, h]

/-- Witness for C9 at concrete intents naming different databases. -/
theorem c9_witness :
    (RestoreUsersOrRoles ⟨"tu", "tr", false, none⟩ (fun _ => false)
        (fun _ => none) (fun _ => none)
        (some ⟨"db1", "system.users", 3, "a"⟩)
        (some ⟨"db2", "system.roles", 3, "b"⟩)).1 = [] ∧
      (RestoreUsersOrRoles ⟨"tu", "tr", false, none⟩ (fun _ => false)
          (fun _ => none) (fun _ => none)
          (some ⟨"db1", "system.users", 3, "a"⟩)
          (some ⟨"db2", "system.roles", 3, "b"⟩)).2 ≠ none :=
  (c9_restoreUsersOrRoles ⟨"tu", "tr", false, none⟩ (fun _ => false)
      (fun _ => none) (fun _ => none)).2
    ⟨"db1", "system.users", 3, "a"⟩ ⟨"db2", "system.roles", 3, "b"⟩ (by decide)

/-- Concrete configuration for exhibiting the C1 divergence. -/
def c1Conf : AuthRestoreConf := ⟨"tmpusers", "tmproles", false, none⟩

/-- A users intent whose data file is empty (size 0). -/
def c1Intent : Intent := ⟨"admin", "system.users", 0, "dump/admin/system.users.bson"⟩

/-- C1 failing-input evaluation: for a users intent with an empty data
file, `RestoreUsersOrRoles` still restores the file into the temporary
staging collection and still passes `tempUsersCollection` to the merge
command — the empty-file branch in the source only logs
"file is empty; skipping" and does not skip the iteration. -/
theorem c1_empty_users_restored_anyway :
    RestoreUsersOrRoles c1Conf (fun _ => false) (fun _ => none) (fun _ => none)
        (some c1Intent) none =
      ([ServerOp.restoreCollection "admin" "tmpusers" c1Intent,
        ServerOp.runCommand "admin"
          [CmdElem.int "_mergeAuthzCollections" 1,
           CmdElem.str "tempUsersCollection" "admin.tmpusers",
           CmdElem.bool "drop" false, CmdElem.str "db" ""],
        ServerOp.dropCollection "admin" "tmpusers"], none) := by
  decide

/-- Structure of a successful sanitization pass: it processes every
index (lengths agree) and the `v` option of each output document is
absent when keep-index-version is unset and untouched when it is set. -/
theorem sanitizeIndexes_spec (conf : RestoreConf) (dbName collName : String) :
    ∀ (idxs s : List IndexDocument) (names : List String),
      sanitizeIndexes conf dbName collName idxs = .ok (s, names) →
      s.length = idxs.length ∧
        (conf.keepIndexVersion = false → ∀ d ∈ s, mapGet d.options "v" = none) ∧
        (conf.keepIndexVersion = true →
          List.Forall₂ (fun o n => mapGet n.options "v" = mapGet o.options "v") idxs s) := by
  intro idxs
  induction idxs with
  | nil =>
    intro s names h
    simp only [sanitizeIndexes] at h
    cases h
    exact ⟨rfl, fun _ => by simp, fun _ => List.Forall₂.nil⟩
  | cons index rest ih =>
    intro s names h
    simp only [sanitizeIndexes] at h
    split at h
    · exact absurd h (by simp)
    · split at h
      · split at h
        · exact absurd h (by simp)
        · cases h
          rename_i nameStr hname restDocs restNames hrest
          obtain ⟨ihlen, ihdel, ihkeep⟩ := ih restDocs restNames hrest
          refine ⟨by simp [ihlen], ?_, ?_⟩
          · intro hkeep d hd
            rcases List.mem_cons.mp hd with rfl | hmem
            · simp only [hkeep, if_false]
              exact mapGet_mapDelete_self _ "v"
            · exact ihdel hkeep d hmem
          · intro hkeep
            refine List.Forall₂.cons ?_ (ihkeep hkeep)
            simp only [hkeep, if_true]
            exact mapGet_mapSet_ne index.options "ns" "v" _ (by decide)
      · exact absurd h (by simp)

/-- On a server below 4.2, a single over-long fully-qualified index
name anywhere in the list makes the sanitization pass fail. -/
theorem sanitizeIndexes_error_of_long (conf : RestoreConf)
    (dbName collName : String)
    (hv : conf.serverVersion.lt ⟨4, 2, 0⟩ = true) :
    ∀ idxs : List IndexDocument,
      (∃ i ∈ idxs, 127 < (fqIndexName dbName collName i).utf8ByteSize) →
      ∃ e, sanitizeIndexes conf dbName collName idxs = .error e := by
  intro idxs
  induction idxs with
  | nil => rintro ⟨i, hi, -⟩; cases hi
  | cons index rest ih =>
    rintro ⟨i, hi, hlong⟩
    simp only [sanitizeIndexes]
    by_cases hc : conf.serverVersion.lt ⟨4, 2, 0⟩ = true ∧
        127 < (fqIndexName dbName collName index).utf8ByteSize
    · rw [if_pos hc]
      exact ⟨_, rfl⟩
    · rw [if_neg hc]
      rcases List.mem_cons.mp hi with rfl | hmem
      · exact absurd ⟨hv, hlong⟩ hc
      · obtain ⟨e, he⟩ := ih ⟨i, hmem, hlong⟩
        cases hname : mapGet (mapSet index.options "ns"
            (.str (dbName ++ "." ++ collName))) "name" with
        | none => exact ⟨"expected name to be a string", by simp [hname]⟩
        | some v =>
          cases v with
          | str nameStr => exact ⟨e, by simp [hname, he]⟩
          | bool b => exact ⟨"expected name to be a string", by simp [hname]⟩
          | int n => exact ⟨"expected name to be a string", by simp [hname]⟩
          | other p => exact ⟨"expected name to be a string", by simp [hname]⟩

/-- When every legacy insert succeeds, the fallback loop inserts each
sanitized index document into `system.indexes`, in order. -/
theorem legacyInsertLoop_all_ok (resp : ServerOp → Option String) (dbName : String)
    (hall : ∀ i, resp (ServerOp.insertOne dbName "system.indexes" i) = none) :
    ∀ s : List IndexDocument,
      legacyInsertLoop resp dbName s =
        (s.map (fun i => ServerOp.insertOne dbName "system.indexes" i), none) := by
  intro s
  induction s with
  | nil => rfl
  | cons i rest ih => simp [legacyInsertLoop, LegacyInsertIndex, hall, ih]

/-- Claim C7: the index-version option `v` is deleted from every index
document before the `createIndexes` command is sent, unless the
keep-index-version output option is set, in which case it is passed
through unchanged; the command issued carries exactly the sanitized
documents. -/
theorem c7_indexVersionHandling (conf : RestoreConf)
    (resp : ServerOp → Option String) (dbName collName : String)
    (idxs s : List IndexDocument) (names : List String)
    (h : sanitizeIndexes conf dbName collName idxs = .ok (s, names)) :
    (CreateIndexes conf resp dbName collName idxs).1.head? =
      some (ServerOp.runCommand dbName (buildRawCommand conf collName s)) ∧
      (conf.keepIndexVersion = false → ∀ d ∈ s, mapGet d.options "v" = none) ∧
      (conf.keepIndexVersion = true →
        List.Forall₂ (fun o n => mapGet n.options "v" = mapGet o.options "v") idxs s) := by
  obtain ⟨-, h2, h3⟩ := sanitizeIndexes_spec conf dbName collName idxs s names h
  refine ⟨?_, h2, h3⟩
  simp only [CreateIndexes, h]
  cases hr : resp (ServerOp.runCommand dbName (buildRawCommand conf collName s)) with
  | none => rfl
  | some errMsg =>
    by_cases he : errMsg ≠ "no such cmd: createIndexes" <;> simp [he]

/-- Witness for C7: one index carrying `v: 2`, keep-index-version
unset; the sanitized document sent in the command has no `v`. -/
theorem c7_witness :
    (CreateIndexes ⟨⟨4, 2, 0⟩, false⟩ (fun _ => none) "d" "c"
        [⟨[("a", BVal.int 1)], [("name", BVal.str "a_1"), ("v", BVal.int 2)]⟩]).1.head? =
      some (ServerOp.runCommand "d" (buildRawCommand ⟨⟨4, 2, 0⟩, false⟩ "c"
        [⟨[("a", BVal.int 1)], [("name", BVal.str "a_1"), ("ns", BVal.str "d.c")]⟩])) ∧
      ∀ d ∈ [(⟨[("a", BVal.int 1)],
          [("name", BVal.str "a_1"), ("ns", BVal.str "d.c")]⟩ : IndexDocument)],
        mapGet d.options "v" = none :=
  ⟨(c7_indexVersionHandling ⟨⟨4, 2, 0⟩, false⟩ (fun _ => none) "d" "c"
      [⟨[("a", BVal.int 1)], [("name", BVal.str "a_1"), ("v", BVal.int 2)]⟩]
      [⟨[("a", BVal.int 1)], [("name", BVal.str "a_1"), ("ns", BVal.str "d.c")]⟩]
      ["a_1"] rfl).1,
   (c7_indexVersionHandling ⟨⟨4, 2, 0⟩, false⟩ (fun _ => none) "d" "c"
      [⟨[("a", BVal.int 1)], [("name", BVal.str "a_1"), ("v", BVal.int 2)]⟩]
      [⟨[("a", BVal.int 1)], [("name", BVal.str "a_1"), ("ns", BVal.str "d.c")]⟩]
      ["a_1"] rfl).2.1 rfl⟩

/-- Claim C3: `CreateIndexes` issues a single `createIndexes` command
carrying all of the (sanitized) index documents of the collection, adds
`ignoreUnknownIndexOptions: true` exactly on servers at or above 4.1.9,
fails before issuing any command on servers below 4.2 whenever some
fully-qualified index name exceeds 127 bytes, and on a
"no such cmd: createIndexes" reply falls back to inserting each index
document individually into `system.indexes`. -/
theorem c3_createIndexes (conf : RestoreConf) (resp : ServerOp → Option String)
    (dbName collName : String) (idxs : List IndexDocument) :
    (∀ s names, sanitizeIndexes conf dbName collName idxs = .ok (s, names) →
      s.length = idxs.length ∧
        (CreateIndexes conf resp dbName collName idxs).1.head? =
          some (ServerOp.runCommand dbName (buildRawCommand conf collName s)) ∧
        (conf.serverVersion.gte ⟨4, 1, 9⟩ = true →
          buildRawCommand conf collName s =
            [CmdElem.str "createIndexes" collName, CmdElem.indexes "indexes" s,
             CmdElem.bool "ignoreUnknownIndexOptions" true]) ∧
        (conf.serverVersion.gte ⟨4, 1, 9⟩ = false →
          buildRawCommand conf collName s =
            [CmdElem.str "createIndexes" collName, CmdElem.indexes "indexes" s])) ∧
      (conf.serverVersion.lt ⟨4, 2, 0⟩ = true →
        (∃ i ∈ idxs, 127 < (fqIndexName dbName collName i).utf8ByteSize) →
        (CreateIndexes conf resp dbName collName idxs).1 = [] ∧
          (CreateIndexes conf resp dbName collName idxs).2 ≠ none) ∧
      (∀ s names, sanitizeIndexes conf dbName collName idxs = .ok (s, names) →
        resp (ServerOp.runCommand dbName (buildRawCommand conf collName s)) =
          some "no such cmd: createIndexes" →
        (∀ i, resp (ServerOp.insertOne dbName "system.indexes" i) = none) →
        (CreateIndexes conf resp dbName collName idxs).1 =
          ServerOp.runCommand dbName (buildRawCommand conf collName s) ::
            s.map (fun i => ServerOp.insertOne dbName "system.indexes" i) ∧
          (CreateIndexes conf resp dbName collName idxs).2 = none) := by
  refine ⟨?_, ?_, ?_⟩
  · intro s names h
    obtain ⟨hlen, -, -⟩ := sanitizeIndexes_spec conf dbName collName idxs s names h
    refine ⟨hlen, ?_, ?_, ?_⟩
    · simp only [CreateIndexes, h]
      cases hr : resp (ServerOp.runCommand dbName (buildRawCommand conf collName s)) with
      | none => rfl
      | some errMsg =>
        by_cases he : errMsg ≠ "no such cmd: createIndexes" <;> simp [he]
    · intro hgte
      simp [buildRawCommand, hgte]
    · intro hgte
      simp [buildRawCommand, hgte]
  · intro hv hex
    obtain ⟨e, he⟩ := sanitizeIndexes_error_of_long conf dbName collName hv idxs hex
    simp [CreateIndexes, he]
  · intro s names h hresp hall
    simp only [CreateIndexes, h, hresp]
    rw [if_neg (by simp)]
    simp [legacyInsertLoop_all_ok resp dbName hall s]

/-- Witness for C3: a pre-4.2 server without `createIndexes`; the
command is issued once and the fallback inserts the index into
`system.indexes`. -/
theorem c3_witness :
    (CreateIndexes ⟨⟨2, 6, 0⟩, true⟩
        (fun op => match op with
          | ServerOp.runCommand _ _ => some "no such cmd: createIndexes"
          | _ => none) "d" "c"
        [⟨[("a", BVal.int 1)], [("name", BVal.str "a_1"), ("v", BVal.int 1)]⟩]).1 =
      ServerOp.runCommand "d" (buildRawCommand ⟨⟨2, 6, 0⟩, true⟩ "c"
          [⟨[("a", BVal.int 1)],
            [("name", BVal.str "a_1"), ("v", BVal.int 1), ("ns", BVal.str "d.c")]⟩]) ::
        List.map (fun i => ServerOp.insertOne "d" "system.indexes" i)
          [⟨[("a", BVal.int 1)],
            [("name", BVal.str "a_1"), ("v", BVal.int 1), ("ns", BVal.str "d.c")]⟩] ∧
      (CreateIndexes ⟨⟨2, 6, 0⟩, true⟩
          (fun op => match op with
            | ServerOp.runCommand _ _ => some "no such cmd: createIndexes"
            | _ => none) "d" "c"
          [⟨[("a", BVal.int 1)], [("name", BVal.str "a_1"), ("v", BVal.int 1)]⟩]).2 = none :=
  (c3_createIndexes ⟨⟨2, 6, 0⟩, true⟩
      (fun op => match op with
        | ServerOp.runCommand _ _ => some "no such cmd: createIndexes"
        | _ => none) "d" "c"
      [⟨[("a", BVal.int 1)], [("name", BVal.str "a_1"), ("v", BVal.int 1)]⟩]).2.2
    [⟨[("a", BVal.int 1)],
      [("name", BVal.str "a_1"), ("v", BVal.int 1), ("ns", BVal.str "d.c")]⟩]
    ["a_1"] rfl rfl (fun _ => rfl)

/-- The database the merge command targets, as the claim states it: the
database named by the users/roles intents, with `admin` mapped to the
empty-string sentinel meaning all databases. -/
def mergeTargetDB (users roles : Option Intent) : String :=
  let d :=
    match roles, users with
    | some r, _ => r.db
    | none, some u => u.db
    | none, none => ""
  if d = "admin" then "" else d

/-- The running `userTargetDB` after a fully successful loop: the
database of the last processed intent. -/
def lastDBAux (t0 : String) : List LoopArg → String
  | [] => t0
  | a :: rest => lastDBAux a.intent.db rest

/-- Every server operation issued inside one loop iteration is a drop
or a restore of the `admin` temp collection; never a command. -/
theorem processArg_ops_shape (ce : String → Bool) (oe : String → Option String)
    (resp : ServerOp → Option String) (arg : LoopArg) :
    ∀ op ∈ (processArg ce oe resp arg).ops,
      op = ServerOp.dropCollection "admin" arg.tempCollectionName ∨
      op = ServerOp.restoreCollection "admin" arg.tempCollectionName arg.intent := by
  intro op hop
  simp only [processArg] at hop
  split at hop
  · simp at hop
  · split at hop
    · split at hop
      · simp at hop
        exact .inl hop
      · split at hop <;> simp at hop <;> tauto
    · split at hop <;> simp at hop <;> tauto

/-- A successful loop iteration records the database of the intent into
`userTargetDB`. -/
theorem processArg_targetDB (ce : String → Bool) (oe : String → Option String)
    (resp : ServerOp → Option String) (arg : LoopArg) :
    (processArg ce oe resp arg).err = none →
    (processArg ce oe resp arg).targetDB = some arg.intent.db := by
  simp only [processArg]
  split
  · intro h; simp at h
  · split
    · split
      · intro h; simp at h
      · split
        · intro h; simp at h
        · intro h; rfl
    · split
      · intro h; simp at h
      · intro h; rfl

/-- The loop never issues a command operation. -/
theorem authLoop_no_runCommand (ce : String → Bool) (oe : String → Option String)
    (resp : ServerOp → Option String) :
    ∀ (args : List LoopArg) (t0 dbn : String) (cmd : List CmdElem),
      ServerOp.runCommand dbn cmd ∉ (authLoop ce oe resp t0 args).ops := by
  intro args
  induction args with
  | nil => intro t0 dbn cmd; simp [authLoop]
  | cons arg rest ih =>
    intro t0 dbn cmd hmem
    cases herr : (processArg ce oe resp arg).err with
    | some e =>
      simp only [authLoop, herr] at hmem
      rcases processArg_ops_shape ce oe resp arg _ hmem with h | h <;> simp at h
    | none =>
      simp only [authLoop, herr] at hmem
      rcases List.mem_append.mp hmem with h | h
      · rcases processArg_ops_shape ce oe resp arg _ h with h' | h' <;> simp at h'
      · exact ih _ dbn cmd h

/-- After a fully successful loop, `userTargetDB` is the database of
the last intent in the argument list. -/
theorem authLoop_targetDB (ce : String → Bool) (oe : String → Option String)
    (resp : ServerOp → Option String) :
    ∀ (args : List LoopArg) (t0 : String),
      (authLoop ce oe resp t0 args).err = none →
      (authLoop ce oe resp t0 args).targetDB = lastDBAux t0 args := by
  intro args
  induction args with
  | nil => intro t0 _; rfl
  | cons arg rest ih =>
    intro t0 h
    cases herr : (processArg ce oe resp arg).err with
    | some e =>
      simp only [authLoop, herr] at h
      simp at h
    | none =>
      have ht := processArg_targetDB ce oe resp arg herr
      simp only [authLoop, herr] at h ⊢
      rw [ht] at h ⊢
      simp only [Option.getD_some] at h ⊢
      simp only [lastDBAux]
      exact ih _ h

/-- Any command in the trace of the post-check body of
`RestoreUsersOrRoles` is the merge command, run against `admin`, built
from the merge arguments of the loop and the sentinel-mapped target
database. -/
theorem runAuthRestore_mergeCommand (conf : AuthRestoreConf)
    (ce : String → Bool) (oe : String → Option String)
    (resp : ServerOp → Option String) (args : List LoopArg)
    (dbn : String) (cmd : List CmdElem)
    (hmem : ServerOp.runCommand dbn cmd ∈ (runAuthRestore conf ce oe resp args).1) :
    dbn = "admin" ∧ (authLoop ce oe resp "" args).err = none ∧
      cmd = buildMergeCommand conf (authLoop ce oe resp "" args).mergeArgs
        (if (authLoop ce oe resp "" args).targetDB = "admin" then ""
         else (authLoop ce oe resp "" args).targetDB) := by
  have hdefer : ∀ L : List String,
      ServerOp.runCommand dbn cmd ∉
        L.map (fun n => ServerOp.dropCollection "admin" n) := by
    intro L hop
    simp [List.mem_map] at hop
  simp only [runAuthRestore] at hmem
  cases herr : (authLoop ce oe resp "" args).err with
  | some e =>
    simp only [herr] at hmem
    rcases List.mem_append.mp hmem with h | h
    · exact absurd h (authLoop_no_runCommand ce oe resp args "" dbn cmd)
    · exact absurd h (hdefer _)
  | none =>
    simp only [herr] at hmem
    cases hresp : resp (ServerOp.runCommand "admin"
        (buildMergeCommand conf (authLoop ce oe resp "" args).mergeArgs
          (if (authLoop ce oe resp "" args).targetDB = "admin" then ""
           else (authLoop ce oe resp "" args).targetDB))) with
    | some e =>
      simp only [hresp] at hmem
      rcases List.mem_append.mp hmem with h | h
      · rcases List.mem_append.mp h with h' | h'
        · exact absurd h' (authLoop_no_runCommand ce oe resp args "" dbn cmd)
        · simp at h'
          exact ⟨h'.1, rfl, h'.2⟩
      · exact absurd h (hdefer _)
    | none =>
      simp only [hresp] at hmem
      rcases List.mem_append.mp hmem with h | h
      · rcases List.mem_append.mp h with h' | h'
        · exact absurd h' (authLoop_no_runCommand ce oe resp args "" dbn cmd)
        · simp at h'
          exact ⟨h'.1, rfl, h'.2⟩
      · exact absurd h (hdefer _)

/-- Claim C6: every `_mergeAuthzCollections` command issued by
`RestoreUsersOrRoles` is run against the `admin` database, carries a
`drop` field equal to the drop option of the caller, and carries a `db`
field equal to the database of the intents — mapped to the empty-string
sentinel when that database is `admin`. -/
theorem c6_mergeCommandFields (conf : AuthRestoreConf) (ce : String → Bool)
    (oe : String → Option String) (resp : ServerOp → Option String)
    (users roles : Option Intent) (dbn : String) (cmd : List CmdElem)
    (hmem : ServerOp.runCommand dbn cmd ∈
      (RestoreUsersOrRoles conf ce oe resp users roles).1) :
    dbn = "admin" ∧ CmdElem.bool "drop" conf.drop ∈ cmd ∧
      CmdElem.str "db" (mergeTargetDB users roles) ∈ cmd := by
  have hfields : ∀ (margs : List CmdElem) (t : String),
      CmdElem.bool "drop" conf.drop ∈ buildMergeCommand conf margs t ∧
        CmdElem.str "db" t ∈ buildMergeCommand conf margs t := by
    intro margs t
    constructor <;> simp [buildMergeCommand]
  cases users with
  | none =>
    cases roles with
    | none => simp [RestoreUsersOrRoles] at hmem
    | some r =>
      obtain ⟨hdbn, herr, hcmd⟩ :=
        runAuthRestore_mergeCommand conf ce oe resp [mkRolesArg conf r] dbn cmd hmem
      have ht := authLoop_targetDB ce oe resp [mkRolesArg conf r] "" herr
      subst hcmd
      rw [ht]
      exact ⟨hdbn, (hfields _ _).1, (hfields _ _).2⟩
  | some u =>
    cases roles with
    | none =>
      obtain ⟨hdbn, herr, hcmd⟩ :=
        runAuthRestore_mergeCommand conf ce oe resp [mkUsersArg conf u] dbn cmd hmem
      have ht := authLoop_targetDB ce oe resp [mkUsersArg conf u] "" herr
      subst hcmd
      rw [ht]
      exact ⟨hdbn, (hfields _ _).1, (hfields _ _).2⟩
    | some r =>
      by_cases hdb : u.db ≠ r.db
      · simp [RestoreUsersOrRoles, hdb] at hmem
      · push_neg at hdb
        simp only [RestoreUsersOrRoles, hdb, ne_eq, not_true_eq_false, if_neg,
          not_false_eq_true] at hmem
        obtain ⟨hdbn, herr, hcmd⟩ :=
          runAuthRestore_mergeCommand conf ce oe resp
            [mkUsersArg conf u, mkRolesArg conf r] dbn cmd hmem
        have ht := authLoop_targetDB ce oe resp
          [mkUsersArg conf u, mkRolesArg conf r] "" herr
        subst hcmd
        rw [ht]
        exact ⟨hdbn, (hfields _ _).1, (hfields _ _).2⟩

/-- Witness for C6: a roles-only restore into `db1`; the merge command
is run against `admin` with `drop: true` and `db: "db1"`. -/
theorem c6_witness :
    "admin" = "admin" ∧
      CmdElem.bool "drop" true ∈
        [CmdElem.int "_mergeAuthzCollections" 1,
         CmdElem.str "tempRolesCollection" "admin.tr",
         CmdElem.bool "drop" true, CmdElem.str "db" "db1"] ∧
      CmdElem.str "db" (mergeTargetDB none (some ⟨"db1", "system.roles", 5, "loc"⟩)) ∈
        [CmdElem.int "_mergeAuthzCollections" 1,
         CmdElem.str "tempRolesCollection" "admin.tr",
         CmdElem.bool "drop" true, CmdElem.str "db" "db1"] :=
  c6_mergeCommandFields ⟨"tu", "tr", true, none⟩ (fun _ => false) (fun _ => none)
    (fun _ => none) none (some ⟨"db1", "system.roles", 5, "loc"⟩) "admin"
    [CmdElem.int "_mergeAuthzCollections" 1,
     CmdElem.str "tempRolesCollection" "admin.tr",
     CmdElem.bool "drop" true, CmdElem.str "db" "db1"] (by decide)
